import Mathlib

/-!
Verification of the media-resolution and export-permission code of the
`strapi-plugin-import-export-entries` plugin.

The JavaScript source (`server/services/utils/file.js` and
`server/controllers/admin/export-controller/export-controller.js`) is shallowly
embedded below.  Stateful service calls (entity store lookups, HTTP fetches,
uploads, temp-file writes/deletes) are modelled by explicit state passing over a
record `St` holding the media store, the set of temp files on disk, and an
ordered trace of observable effects.  A JavaScript promise outcome is modelled
by `JsOutcome`: resolution, rejection (a thrown error), or `hang` for a promise
that never settles (which is what a `throw` inside the `async` callback handed
to `request` produces: the rejection is unhandled and the outer promise is
never resolved nor rejected).

External JavaScript builtins (`decodeURIComponent`, WHATWG `new URL`, the
`@sindresorhus/slugify` package) are modelled at the character level, faithfully
for the ASCII, percent-escape-free, absolute hierarchical URLs these claims are
about.
-/

deriving instance DecidableEq for Except

namespace ImportExport

/-- Source lodash `trim(s, c)`: drop the given character from both ends. -/
def trimChar (s : String) (c : Char) : String :=
  let l := s.toList.dropWhile (fun x => x = c)
  String.mk ((l.reverse.dropWhile (fun x => x = c)).reverse)

/-- JS `s.toLowerCase()` on ASCII content, character by character. -/
def strToLower (s : String) : String :=
  String.mk (s.toList.map Char.toLower)

/-- JS `s.replace(/a/g, b)` for single characters `a`, `b`. -/
def replaceChar (s : String) (a b : Char) : String :=
  String.mk (s.toList.map (fun c => if c = a then b else c))

/-- JS `s.startsWith(pre)`. -/
def strStartsWith (s pre : String) : Bool :=
  pre.toList.isPrefixOf s.toList

/-- JS `s.substring(0, s.lastIndexOf('.'))`: the part of the string before the
last dot, `""` when there is no dot (`lastIndexOf` returns `-1` and
`substring(0, -1)` clamps to the empty string). -/
def lastDotPrefix (p : String) : String :=
  match p.toList.reverse.findIdx? (fun c => c = '.') with
  | none => ""
  | some ri => String.mk (p.toList.take (p.toList.length - 1 - ri))

/-- Modelled from `@sindresorhus/slugify` with options
`{separator: '_', lowercase: false}` on ASCII inputs without camelCase humps:
alphanumeric runs are kept, every maximal run of other characters becomes one
separator, and separators are trimmed at both ends. -/
def slugifyJs (s : String) : String :=
  String.intercalate "_"
    ((((s.toList.map (fun c => if c.isAlphanum then c else ' ')).splitOn ' ').filter
      (fun w => w ≠ [])).map String.mk)

/-- Numeric value of a hexadecimal digit, `none` for other characters. -/
def hexVal (c : Char) : Option Nat :=
  if '0' ≤ c ∧ c ≤ '9' then some (c.toNat - '0'.toNat)
  else if 'a' ≤ c ∧ c ≤ 'f' then some (c.toNat - 'a'.toNat + 10)
  else if 'A' ≤ c ∧ c ≤ 'F' then some (c.toNat - 'A'.toNat + 10)
  else none

/-- One step of character-level percent-decoding. -/
def percentDecodeList : List Char → Except String (List Char)
  | [] => .ok []
  | '%' :: a :: b :: rest =>
    match hexVal a, hexVal b with
    | some ha, some hb =>
      match percentDecodeList rest with
      | .ok l => .ok (Char.ofNat (16 * ha + hb) :: l)
      | .error e => .error e
    | _, _ => .error "URIError: URI malformed"
  | '%' :: _ => .error "URIError: URI malformed"
  | c :: rest =>
    match percentDecodeList rest with
    | .ok l => .ok (c :: l)
    | .error e => .error e

/-- JS `decodeURIComponent(x)`.  The argument is coerced to a string first, so
`undefined` (modelled as `none`) becomes the literal string `"undefined"`.
Percent-escapes are decoded at the character level; a malformed escape throws
`URIError`. -/
def decodeURIComponentJs (u : Option String) : Except String String :=
  match percentDecodeList (match u with | none => "undefined" | some s => s).toList with
  | .ok l => .ok (String.mk l)
  | .error e => .error e

/-- The only part of a parsed WHATWG URL the source reads. -/
structure URLParts where
  pathname : String
deriving DecidableEq, Repr

/-- Split a character list at the first occurrence of `sep`, when present. -/
def splitFirstList (sep : List Char) : List Char → Option (List Char × List Char)
  | [] => none
  | c :: rest =>
    if sep.isPrefixOf (c :: rest) then some ([], (c :: rest).drop sep.length)
    else
      match splitFirstList sep rest with
      | some (a, b) => some (c :: a, b)
      | none => none

/-- Split a string at the first occurrence of `sep`, when present. -/
def splitFirst (s sep : String) : Option (String × String) :=
  match splitFirstList sep.toList s.toList with
  | none => none
  | some (a, b) => some (String.mk a, String.mk b)

def isSchemeChar (c : Char) : Bool :=
  c.isAlphanum || c = '+' || c = '-' || c = '.'

/-- Modelled from the WHATWG `new URL` constructor for absolute hierarchical
URLs `scheme://host/path?query#fragment`: throws (`.error`) when there is no
`://`, the scheme is not an alphabetic-led scheme, or the host is empty;
otherwise the pathname is everything from the first `/` after the host up to
the first `?` or `#`, and `/` when that segment is empty. -/
def parseURL (s : String) : Except String URLParts :=
  match splitFirst s "://" with
  | none => .error "TypeError: Invalid URL"
  | some (scheme, rest) =>
    if scheme ≠ "" && (scheme.toList.headD ' ').isAlpha && scheme.toList.all isSchemeChar then
      let host := rest.toList.takeWhile (fun c => c ≠ '/' && c ≠ '?' && c ≠ '#')
      if host.isEmpty then .error "TypeError: Invalid URL"
      else
        let path := (rest.toList.drop host.length).takeWhile (fun c => c ≠ '?' && c ≠ '#')
        .ok ⟨if path.isEmpty then "/" else String.mk path⟩
    else .error "TypeError: Invalid URL"

/-- The record produced by `getFileDataFromRawUrl`. -/
structure FileData where
  name : String
  hashPart : String
  extension : String
deriving DecidableEq, Repr

/-- Source `getHashPart(rawUrl)`: parse the decoded URL, strip the
extension from the pathname (falling back to the whole pathname when the
stripped part is empty), and slugify with separator `_`, keeping case. -/
def getHashPart (rawUrl : Option String) : Except String String :=
  match decodeURIComponentJs rawUrl with
  | .error e => .error e
  | .ok s =>
    match parseURL s with
    | .error e => .error e
    | .ok u =>
      let stripped := lastDotPrefix u.pathname
      .ok (slugifyJs (if stripped = "" then u.pathname else stripped))

/-- Source `getFileDataFromRawUrl(rawUrl)`: `name` is the pathname
lowercased, trimmed of `/` at both ends, with the remaining `/` replaced by
`-` (extension retained); `extension` is the lowercased last `.`-segment of the
pathname. -/
def getFileDataFromRawUrl (rawUrl : Option String) : Except String FileData :=
  match decodeURIComponentJs rawUrl with
  | .error e => .error e
  | .ok s =>
    match parseURL s with
    | .error e => .error e
    | .ok u =>
      let stripped := lastDotPrefix u.pathname
      .ok ⟨replaceChar (trimChar (strToLower u.pathname) '/') '/' '-',
           slugifyJs (if stripped = "" then u.pathname else stripped),
           strToLower (String.mk ((u.pathname.toList.splitOn '.').getLastD []))⟩

/-- A Strapi `plugin::upload.file` entity, restricted to the fields the source
reads: `ext` carries the leading dot (e.g. `".png"`), as Strapi stores it. -/
structure StoredFile where
  id : Nat
  hash : String
  ext : String
  name : String
deriving DecidableEq, Repr

/-- Observable effects of one resolution, in order of occurrence. -/
inductive Effect where
  | findFileById (id : Nat)
  | findFileByHash (hash : String)
  | findFileByName (name : String)
  | httpGet (url : String)
  | writeTmp (path : String)
  | upload (fileInfoName : String) (fileInfoAlt : String) (fileInfoCaption : String)
  | deleteTmp (path : String)
deriving DecidableEq, Repr

/-- The state threaded through a resolution: the media store's files, the temp
files currently on disk, and the trace of effects so far. -/
structure St where
  files : List StoredFile
  disk : List String
  trace : List Effect
deriving DecidableEq, Repr

/-- Outcome of awaiting a JS promise: resolved, rejected (thrown error), or a
promise that never settles. -/
inductive JsOutcome (α : Type) where
  | ok (a : α)
  | err (e : String)
  | hang
deriving DecidableEq, Repr

/-- Result of the HTTP GET issued by `request`: a transport error (callback
`err` set) or a response with status and headers.  `contentType` is `none` when
the `content-type` header is absent, `contentLength` likewise. -/
inductive HttpResult where
  | transportErr (msg : String)
  | response (status : Nat) (contentType : Option String) (contentLength : Option Nat)

/-- The external collaborators: the network, whether `fs.writeFileSync`
succeeds on a fresh path, what the upload service returns, and the fresh
directory `fse.mkdtemp` produces. -/
structure World where
  http : String → HttpResult
  writeOk : Bool
  uploadResult : Except String StoredFile
  tmpDir : String

/-- JS truthiness of an optional number (`0` and `undefined` are falsy). -/
def optNatTruthy : Option Nat → Bool
  | some n => n ≠ 0
  | none => false

/-- JS truthiness of an optional string (`""` and `undefined` are falsy). -/
def optStrTruthy : Option String → Bool
  | some s => s ≠ ""
  | none => false

/-- Source `findFile({id, hash, name})`: by id via `findOne`; else by
hash via `findMany` with `hash: {$startsWith: hash + "_"}, limit 1`; else by
exact name with `limit 1`; else no query at all and `null`. -/
def findFile (fid : Option Nat) (fhash : Option String) (fname : Option String)
    (st : St) : Option StoredFile × St :=
  if optNatTruthy fid then
    let i := fid.getD 0
    (st.files.find? (fun f => f.id = i), {st with trace := st.trace ++ [.findFileById i]})
  else if optStrTruthy fhash then
    let h := fhash.getD ""
    ((st.files.filter (fun f => strStartsWith f.hash (h ++ "_"))).head?,
      {st with trace := st.trace ++ [.findFileByHash h]})
  else if optStrTruthy fname then
    let n := fname.getD ""
    ((st.files.filter (fun f => f.name = n)).head?,
      {st with trace := st.trace ++ [.findFileByName n]})
  else (none, st)

def ALLOWED_AUDIOS : List String := ["mp3", "wav", "ogg"]
def ALLOWED_IMAGES : List String := ["png", "gif", "jpg", "jpeg", "svg", "bmp", "tif", "tiff"]
def ALLOWED_VIDEOS : List String := ["mp4", "avi"]

/-- The `fileTypeCheckers` record: `none` for a type key it does not contain. -/
def fileTypeCheckers (t : String) : Option (String → Bool) :=
  if t = "audios" then some (fun ext => ALLOWED_AUDIOS.contains ext)
  else if t = "files" then some (fun _ => true)
  else if t = "images" then some (fun ext => ALLOWED_IMAGES.contains ext)
  else if t = "videos" then some (fun ext => ALLOWED_VIDEOS.contains ext)
  else none

/-- Source `getFileTypeChecker`: throws on a type key missing from the record. -/
def getFileTypeChecker (t : String) : Except String (String → Bool) :=
  match fileTypeCheckers t with
  | some c => .ok c
  | none => .error ("Strapi file type " ++ t ++ " not handled.")

/-- Source `allowedFileTypes.map(getFileTypeChecker)`: throws at the first unknown
type key, as JS `Array.prototype.map` does. -/
def mapCheckers : List String → Except String (List (String → Bool))
  | [] => .ok []
  | t :: rest =>
    match getFileTypeChecker t with
    | .error e => .error e
    | .ok c =>
      match mapCheckers rest with
      | .error e => .error e
      | .ok cs => .ok (c :: cs)

/-- Source `isExtensionAllowed(ext, allowedFileTypes)`: true iff some checker from the
allow-list accepts the extension. -/
def isExtensionAllowed (ext : String) (allowedFileTypes : List String) : Except String Bool :=
  match mapCheckers allowedFileTypes with
  | .error e => .error e
  | .ok cs => .ok (cs.any (fun c => c ext))

/-- The `fileData` part of the record `isValidFileUrl` returns.  `hashPart` is
`none` in the catch branch, where the source omits the field. -/
structure CheckFileData where
  fileName : String
  rawUrl : String
  hashPart : Option String
deriving DecidableEq, Repr

structure CheckResult where
  isValid : Bool
  fileData : CheckFileData
deriving DecidableEq, Repr

/-- Source `isValidFileUrl(url, allowedFileTypes)`: inside a try/catch, derive the
file data from the URL, check its extension, and return
`{isValid, fileData: {fileName: name, rawUrl: url, hashPart}}`; any throw is
caught and yields `{isValid: false, fileData: {fileName: '', rawUrl: ''}}`. -/
def isValidFileUrl (url : Option String) (allowedFileTypes : List String) : CheckResult :=
  match getFileDataFromRawUrl url with
  | .error _ => ⟨false, ⟨"", "", none⟩⟩
  | .ok fdd =>
    match isExtensionAllowed fdd.extension allowedFileTypes with
    | .error _ => ⟨false, ⟨"", "", none⟩⟩
    | .ok v =>
      match getHashPart url with
      | .error _ => ⟨false, ⟨"", "", none⟩⟩
      | .ok hp => ⟨v, ⟨fdd.name, url.getD "", some hp⟩⟩

/-- The value `fetchFile` resolves with. -/
structure FetchedFile where
  name : String
  type : String
  size : Nat
  path : String
deriving DecidableEq, Repr

/-- Source `fetchFile(url)`.  The GET is issued; on a transport error
the promise is rejected.  On a non-2xx status the callback `throw`s — but the
callback is an `async` function whose rejection `request` discards, so the
outer promise never settles (`hang`).  The same applies to any other throw
inside the callback: a missing `content-type` header
(the content-type header read via `.split` on `undefined`), a URL that
`getFileDataFromRawUrl` rejects, or a failing `writeFile` (including the
`EISDIR` of `writeFileSync(path.join(dir, ''))` when the derived name is
empty).  On success the body is written to `path.join(tmpDir, name)` and the
promise resolves. -/
def fetchFile (url : String) (w : World) (st : St) : JsOutcome FetchedFile × St :=
  let st := {st with trace := st.trace ++ [.httpGet url]}
  match w.http url with
  | .transportErr msg => (.err msg, st)
  | .response status contentType contentLength =>
    if status < 200 || 300 ≤ status then (.hang, st)
    else
      match contentType with
      | none => (.hang, st)
      | some ct =>
        let ty := String.mk ((ct.toList.splitOn ';').headD [])
        let size := contentLength.getD 0
        match getFileDataFromRawUrl (some url) with
        | .error _ => (.hang, st)
        | .ok fdd =>
          if w.writeOk && fdd.name ≠ "" then
            let p := w.tmpDir ++ "/" ++ fdd.name
            (.ok ⟨fdd.name, ty, size, p⟩,
              {st with disk := st.disk ++ [p], trace := st.trace ++ [.writeTmp p]})
          else (.hang, st)

/-- Source `deleteFileIfExists(filePath)`: remove the path when it is truthy and
exists on disk. -/
def deleteFileIfExists (p : Option String) (st : St) : St :=
  match p with
  | none => st
  | some path =>
    if path ≠ "" && st.disk.contains path then
      {st with disk := st.disk.erase path, trace := st.trace ++ [.deleteTmp path]}
    else st

/-- The upload call recorded as an effect, carrying the `fileInfo` the source
builds: `name || file.name`, `alternativeText || file.name`,
`caption || file.name`. -/
def uploadEffect (name alternativeText caption : Option String) (f : FetchedFile) : Effect :=
  .upload (if optStrTruthy name then name.getD "" else f.name)
    (if optStrTruthy alternativeText then alternativeText.getD "" else f.name)
    (if optStrTruthy caption then caption.getD "" else f.name)

/-- Source `importFile({url, name, alternativeText, caption}, user)`: fetch, then
upload (adding the uploaded entity to the store), rethrow any error, and in the
`finally` clause delete the fetched temp file (`file?.path`, which is
`undefined` when the fetch itself rejected).  When the fetch hangs the
`finally` clause is never reached. -/
def importFile (url : String) (name alternativeText caption : Option String)
    (w : World) (st : St) : JsOutcome StoredFile × St :=
  match fetchFile url w st with
  | (.hang, st) => (.hang, st)
  | (.err e, st) => (.err e, deleteFileIfExists none st)
  | (.ok f, st) =>
    let st := {st with trace := st.trace ++ [uploadEffect name alternativeText caption f]}
    match w.uploadResult with
    | .error e => (.err e, deleteFileIfExists (some f.path) st)
    | .ok uf =>
      (.ok uf, deleteFileIfExists (some f.path) {st with files := st.files ++ [uf]})

/-- The url/name/alternativeText/caption fields destructured from the
`fileData` argument of `importByUrl`.  Destructuring a bare string yields
`undefined` (`none`) for all four. -/
structure UrlDescriptor where
  url : Option String
  name : Option String
  alternativeText : Option String
  caption : Option String
deriving DecidableEq, Repr

/-- Source `importByUrl({url, name, alternativeText, caption}, allowedFileTypes,
user)`: validate the URL (returning `null` when invalid), look up an existing
file by `hash: fileData.fileName`, and only call `importFile` when the lookup
found nothing. -/
def importByUrl (fd : UrlDescriptor) (allowedFileTypes : List String) (w : World)
    (st : St) : JsOutcome (Option StoredFile) × St :=
  let cr := isValidFileUrl fd.url allowedFileTypes
  if !cr.isValid then (.ok none, st)
  else
    let r := findFile none (some cr.fileData.fileName) none st
    match r.1 with
    | some f => (.ok (some f), r.2)
    | none =>
      match importFile cr.fileData.rawUrl fd.name fd.alternativeText fd.caption w r.2 with
      | (.ok uf, st2) => (.ok (some uf), st2)
      | (.err e, st2) => (.err e, st2)
      | (.hang, st2) => (.hang, st2)

/-- Source `importById(id, allowedFileTypes)`: look up by id and null out a found file
whose extension (`file.ext.substring(1)`) the allow-list rejects; a throw from
`isExtensionAllowed` propagates. -/
def importById (id : Nat) (allowedFileTypes : List String) (st : St) :
    JsOutcome (Option StoredFile) × St :=
  let r := findFile (some id) none none st
  match r.1 with
  | none => (.ok none, r.2)
  | some f =>
    match isExtensionAllowed (f.ext.drop 1) allowedFileTypes with
    | .error e => (.err e, r.2)
    | .ok b => if b then (.ok (some f), r.2) else (.ok none, r.2)

/-- Source `importByName(name, allowedFileTypes)`: same as `importById` with a
name lookup. -/
def importByName (name : String) (allowedFileTypes : List String) (st : St) :
    JsOutcome (Option StoredFile) × St :=
  let r := findFile none none (some name) st
  match r.1 with
  | none => (.ok none, r.2)
  | some f =>
    match isExtensionAllowed (f.ext.drop 1) allowedFileTypes with
    | .error e => (.err e, r.2)
    | .ok b => if b then (.ok (some f), r.2) else (.ok none, r.2)

/-- The `fileData` argument of `findOrImportFile`: a number, a bare string, an
object (`isObjectSafe`), or anything else. -/
inductive FileDataInput where
  | num (id : Nat)
  | str (s : String)
  | obj (id : Option Nat) (url : Option String) (name : Option String)
      (alternativeText : Option String) (caption : Option String)
  | other
deriving DecidableEq, Repr

/-- Source `findOrImportFile(fileData, user, {allowedFileTypes})`: a number resolves
by id; a string is passed whole to `importByUrl`, whose destructuring of `url`
from a string yields `undefined`; an object tries id, then url, then name,
each branch only when no file has been obtained yet and the field is truthy;
anything else returns `undefined` (modelled as `none`). -/
def findOrImportFile (fileData : FileDataInput) (allowedFileTypes : List String)
    (w : World) (st : St) : JsOutcome (Option StoredFile) × St :=
  match fileData with
  | .num id => importById id allowedFileTypes st
  | .str _ => importByUrl ⟨none, none, none, none⟩ allowedFileTypes w st
  | .obj i u n a c =>
    match (if optNatTruthy i then importById (i.getD 0) allowedFileTypes st
           else (.ok none, st) : JsOutcome (Option StoredFile) × St) with
    | (.err e, st1) => (.err e, st1)
    | (.hang, st1) => (.hang, st1)
    | (.ok f1, st1) =>
      match (if f1.isNone && optStrTruthy u then
               importByUrl ⟨u, n, a, c⟩ allowedFileTypes w st1
             else (.ok f1, st1) : JsOutcome (Option StoredFile) × St) with
      | (.err e, st2) => (.err e, st2)
      | (.hang, st2) => (.hang, st2)
      | (.ok f2, st2) =>
        if f2.isNone && optStrTruthy n then importByName (n.getD "") allowedFileTypes st2
        else (.ok f2, st2)
  | .other => (.ok none, st)

/-- The checker the `fileTypeCheckers` record holds for a type key it does
contain (a default that rejects everything is returned off that domain, where
the source would have thrown instead). -/
def checkerOf (t : String) : String → Bool :=
  (fileTypeCheckers t).getD (fun _ => false)

/-- The temp-file path `fetchFile` writes for a URL: `path.join(tmpDir, name)`
for the name derived from the URL (`""` when the URL does not parse, in which
case nothing is ever written). -/
def tmpPath (w : World) (url : String) : String :=
  match getFileDataFromRawUrl (some url) with
  | .ok fdd => w.tmpDir ++ "/" ++ fdd.name
  | .error _ => ""

/-! Concrete scenarios used by the witnesses and counterexamples below. -/

def stEmpty : St := ⟨[], [], []⟩

/-- A stored `.exe` file, for the extension-allow checks. -/
def exeFile : StoredFile := ⟨1, "h_1", ".exe", "a.exe"⟩

def stExe : St := ⟨[exeFile], [], []⟩

/-- A stored `.png` file retrievable by id. -/
def imgFile : StoredFile := ⟨3, "img_1", ".png", "img.png"⟩

def stImg : St := ⟨[imgFile], [], []⟩

/-- The file the upload service stores for `https://x/y/pic.png`; its hash
starts with the derived file name `y-pic.png` followed by `_`. -/
def pngFile : StoredFile := ⟨9, "y-pic.png_abc", ".png", "pic.png"⟩

/-- A world whose GET succeeds and whose upload stores `pngFile`. -/
def wPng : World := ⟨fun _ => .response 200 (some "image/png") (some 3), true, .ok pngFile, "/tmp/t"⟩

/-- A world whose GET always answers 404. -/
def w404 : World := ⟨fun _ => .response 404 (some "text/html") (some 0), true, .error "unreachable", "/tmp/t"⟩

/-- A world whose GET always fails at the transport level. -/
def wNet : World := ⟨fun _ => .transportErr "ECONNREFUSED", true, .error "unreachable", "/tmp/t"⟩

/-- A store holding a file whose hash starts with `y-pic_` — the prefix the
spec says the resolver searches for `https://x/y/pic.png`. -/
def stHash : St := ⟨[⟨7, "y-pic_123", ".png", "pic.png"⟩], [], []⟩

def picUrl : UrlDescriptor := ⟨some "https://x/y/pic.png", none, none, none⟩

def exeUrl : UrlDescriptor := ⟨some "https://x/a.exe", none, none, none⟩

/-- The state after a first resolution of `picUrl` from `stEmpty` under
`wPng`: the file was fetched, uploaded, and its temp file deleted. -/
def st1Png : St :=
  ⟨[pngFile], [],
   [.findFileByHash "y-pic.png", .httpGet "https://x/y/pic.png",
    .writeTmp "/tmp/t/y-pic.png", .upload "y-pic.png" "y-pic.png" "y-pic.png",
    .deleteTmp "/tmp/t/y-pic.png"]⟩

end ImportExport

namespace ExportController

/-- The request-body fields the export controller destructures (`deepness`
defaults to 5 when absent). -/
structure ExportCtx where
  slug : String
  search : String
  applySearch : Bool
  exportFormat : String
  relationsAsId : Bool
  deepness : Option Nat
deriving DecidableEq, Repr

/-- The collaborators of `exportData`: the content-manager permission checker
(`permissionChecker.can.read()` for the request's model slug) and the export
service's `exportData`. -/
structure Deps where
  canRead : String → Bool
  exportService : String → String → Bool → String → Bool → Nat → String

/-- An effect of the controller: one invocation of the export service. -/
inductive ExportEffect where
  | exportServiceCall (slug : String)
deriving DecidableEq, Repr

inductive ExportResponse where
  | forbidden
  | body (data : String)
deriving DecidableEq, Repr

/-- Source `hasPermissions(ctx)`: the permission checker's `can.read()` for the
request's model slug. -/
def hasPermissions (deps : Deps) (ctx : ExportCtx) : Bool :=
  deps.canRead ctx.slug

/-- Source `exportData(ctx)` from the export controller: return `ctx.forbidden()`
when `hasPermissions` fails, otherwise call the export service and answer with
its data. -/
def exportData (deps : Deps) (ctx : ExportCtx) : ExportResponse × List ExportEffect :=
  if !hasPermissions deps ctx then (.forbidden, [])
  else
    (.body (deps.exportService ctx.slug ctx.search ctx.applySearch ctx.exportFormat
        ctx.relationsAsId (ctx.deepness.getD 5)),
      [.exportServiceCall ctx.slug])


/-- A permission checker that denies read on every collection. -/
def depsNoRead : Deps := ⟨fun _ => false, fun s _ _ _ _ _ => s⟩

/-- A sample export request body. -/
def ctxSample : ExportCtx := ⟨"api::article.article", "", false, "json", false, none⟩

end ExportController

namespace ImportExport

/-! ### Helper lemmas -/

theorem getHashPart_of_fileData (u : Option String) (fdd : FileData)
    (h : getFileDataFromRawUrl u = .ok fdd) : getHashPart u = .ok fdd.hashPart := by
  cases hd : decodeURIComponentJs u with
  | error e => simp only [getFileDataFromRawUrl, hd] at h; exact Except.noConfusion h
  | ok s =>
    cases hp : parseURL s with
    | error e => simp only [getFileDataFromRawUrl, hd, hp] at h; exact Except.noConfusion h
    | ok up =>
      simp only [getFileDataFromRawUrl, hd, hp, Except.ok.injEq] at h
      simp only [getHashPart, hd, hp, ← h]

theorem decodeURIComponentJs_none : decodeURIComponentJs none = .ok "undefined" := rfl

theorem parseURL_undefined : ∃ e, parseURL "undefined" = .error e :=
  ⟨"TypeError: Invalid URL", rfl⟩

theorem getFileDataFromRawUrl_none : ∃ e, getFileDataFromRawUrl none = .error e := by
  obtain ⟨e, he⟩ := parseURL_undefined
  exact ⟨e, by simp only [getFileDataFromRawUrl, decodeURIComponentJs_none, he]⟩

theorem isValidFileUrl_ok (url : Option String) (ts : List String)
    (hv : (isValidFileUrl url ts).isValid = true) :
    ∃ u fdd, url = some u ∧ getFileDataFromRawUrl (some u) = .ok fdd ∧
      isExtensionAllowed fdd.extension ts = .ok true ∧
      isValidFileUrl url ts = ⟨true, ⟨fdd.name, u, some fdd.hashPart⟩⟩ := by
  cases url with
  | none =>
    obtain ⟨e, he⟩ := getFileDataFromRawUrl_none
    simp only [isValidFileUrl, he] at hv
    exact absurd hv (by simp)
  | some u =>
    cases hf : getFileDataFromRawUrl (some u) with
    | error e =>
      simp only [isValidFileUrl, hf] at hv
      exact absurd hv (by simp)
    | ok fdd =>
      cases he : isExtensionAllowed fdd.extension ts with
      | error e =>
        simp only [isValidFileUrl, hf, he] at hv
        exact absurd hv (by simp)
      | ok b =>
        have hvv : isValidFileUrl (some u) ts = ⟨b, ⟨fdd.name, u, some fdd.hashPart⟩⟩ := by
          simp only [isValidFileUrl, hf, he, getHashPart_of_fileData _ _ hf, Option.getD_some]
        rw [hvv] at hv
        cases b with
        | false => exact absurd hv (by simp)
        | true => exact ⟨u, fdd, rfl, hf, he, hvv⟩

theorem mapCheckers_ok (ts : List String)
    (h : (ts.all fun t => (fileTypeCheckers t).isSome) = true) :
    mapCheckers ts = .ok (ts.map checkerOf) := by
  induction ts with
  | nil => rfl
  | cons t rest ih =>
    rw [List.all_cons, Bool.and_eq_true] at h
    obtain ⟨h1, h2⟩ := h
    cases hc : fileTypeCheckers t with
    | none => rw [hc] at h1; exact absurd h1 (by simp)
    | some c =>
      simp only [mapCheckers, getFileTypeChecker, hc, ih h2, List.map_cons, checkerOf,
        Option.getD_some]


/-- Full characterization of `importFile`: the fetch either fails before
writing anything (rejected transport error or a hang from the thrown status /
header / URL / write error), or a temp file is written and the upload outcome
decides the result, with the temp file deleted in the `finally` clause either
way. -/
theorem importFile_cases (url : String) (n a c : Option String) (w : World) (st : St) :
    importFile url n a c w st = (.hang, {st with trace := st.trace ++ [.httpGet url]})
  ∨ (∃ e, importFile url n a c w st = (.err e, {st with trace := st.trace ++ [.httpGet url]}))
  ∨ (∃ f fdd, getFileDataFromRawUrl (some url) = .ok fdd ∧ fdd.name ≠ ""
      ∧ f.name = fdd.name ∧ f.path = w.tmpDir ++ "/" ++ fdd.name ∧ f.path ≠ ""
      ∧ ((∃ e, w.uploadResult = .error e ∧
            importFile url n a c w st = (.err e,
              ⟨st.files, (st.disk ++ [f.path]).erase f.path,
               st.trace ++ [.httpGet url, .writeTmp f.path, uploadEffect n a c f,
                 .deleteTmp f.path]⟩))
        ∨ (∃ uf, w.uploadResult = .ok uf ∧
            importFile url n a c w st = (.ok uf,
              ⟨st.files ++ [uf], (st.disk ++ [f.path]).erase f.path,
               st.trace ++ [.httpGet url, .writeTmp f.path, uploadEffect n a c f,
                 .deleteTmp f.path]⟩)))) := by
  cases hh : w.http url with
  | transportErr msg =>
    right; left
    exact ⟨msg, by simp [importFile, fetchFile, hh, deleteFileIfExists]⟩
  | response status ct cl =>
    by_cases hs : (status < 200 || 300 ≤ status) = true
    · left; simp [importFile, fetchFile, hh, hs]
    · cases ct with
      | none => left; simp [importFile, fetchFile, hh, hs]
      | some ctv =>
        cases hfd : getFileDataFromRawUrl (some url) with
        | error e => left; simp [importFile, fetchFile, hh, hs, hfd]
        | ok fdd =>
          by_cases hw1 : w.writeOk = true
          · by_cases hw2 : fdd.name = ""
            · left; simp [importFile, fetchFile, hh, hs, hfd, hw1, hw2]
            · have hpne : w.tmpDir ++ "/" ++ fdd.name ≠ "" := by
                intro hp
                have := congrArg String.toList hp
                simp at this
              cases hu : w.uploadResult with
              | error e =>
                right; right
                refine ⟨⟨fdd.name, String.mk ((ctv.toList.splitOn ';').headD []),
                  cl.getD 0, w.tmpDir ++ "/" ++ fdd.name⟩, fdd, rfl, hw2, rfl, rfl, hpne,
                  Or.inl ⟨e, rfl, ?_⟩⟩
                simp [importFile, fetchFile, hh, hs, hfd, hw1, hw2, hu,
                  deleteFileIfExists, hpne]
              | ok uf =>
                right; right
                refine ⟨⟨fdd.name, String.mk ((ctv.toList.splitOn ';').headD []),
                  cl.getD 0, w.tmpDir ++ "/" ++ fdd.name⟩, fdd, rfl, hw2, rfl, rfl, hpne,
                  Or.inr ⟨uf, rfl, ?_⟩⟩
                simp [importFile, fetchFile, hh, hs, hfd, hw1, hw2, hu,
                  deleteFileIfExists, hpne]
          · left
            simp [importFile, fetchFile, hh, hs, hfd, hw1]

end ImportExport

namespace ImportExport

/-! ### Claim theorems -/

/-- C8: the extension allow check accepts an extension iff some entry of
`allowedFileTypes` accepts it, where `audios` accepts exactly mp3/wav/ogg,
`images` exactly png/gif/jpg/jpeg/svg/bmp/tif/tiff, `videos` exactly mp4/avi,
and `files` accepts every extension. -/
theorem isExtensionAllowed_characterization (ext : String) (ts : List String)
    (h : (ts.all fun t => (fileTypeCheckers t).isSome) = true) :
    isExtensionAllowed ext ts = .ok (ts.any fun t => checkerOf t ext)
  ∧ (isExtensionAllowed ext ts = .ok true ↔ ∃ t ∈ ts, checkerOf t ext = true)
  ∧ checkerOf "audios" ext = ALLOWED_AUDIOS.contains ext
  ∧ checkerOf "images" ext = ALLOWED_IMAGES.contains ext
  ∧ checkerOf "videos" ext = ALLOWED_VIDEOS.contains ext
  ∧ checkerOf "files" ext = true := by
  have hm : ∀ (l : List String),
      ((l.map checkerOf).any fun c => c ext) = l.any fun t => checkerOf t ext := by
    intro l
    induction l with
    | nil => rfl
    | cons t r ih => simp [ih]
  have h1 : isExtensionAllowed ext ts = .ok (ts.any fun t => checkerOf t ext) := by
    simp [isExtensionAllowed, mapCheckers_ok ts h, hm]
  refine ⟨h1, ?_, rfl, rfl, rfl, rfl⟩
  rw [h1]
  constructor
  · intro hh
    have hb : (ts.any fun t => checkerOf t ext) = true := by
      injection hh
    exact List.any_eq_true.mp hb
  · intro hex
    rw [List.any_eq_true.mpr hex]

/-- C8 witness: the check at extension png with allow-list [images, audios]. -/
theorem isExtensionAllowed_characterization_witness :
    isExtensionAllowed "png" ["images", "audios"]
        = .ok ((["images", "audios"]).any fun t => checkerOf t "png")
  ∧ (isExtensionAllowed "png" ["images", "audios"] = .ok true
      ↔ ∃ t ∈ ["images", "audios"], checkerOf t "png" = true)
  ∧ checkerOf "audios" "png" = ALLOWED_AUDIOS.contains "png"
  ∧ checkerOf "images" "png" = ALLOWED_IMAGES.contains "png"
  ∧ checkerOf "videos" "png" = ALLOWED_VIDEOS.contains "png"
  ∧ checkerOf "files" "png" = true :=
  isExtensionAllowed_characterization "png" ["images", "audios"] (by decide)

/-- C6: both `importById` and `importByName` null out a found file whose
extension the allow-list rejects, returning a resolved `null` rather than an
error. -/
theorem importById_importByName_reject_disallowed (id : Nat) (nm : String)
    (ts : List String) (st st2 : St) (f g : StoredFile)
    (hid : (findFile (some id) none none st).1 = some f)
    (hf : isExtensionAllowed (f.ext.drop 1) ts = .ok false)
    (hnm : (findFile none none (some nm) st2).1 = some g)
    (hg : isExtensionAllowed (g.ext.drop 1) ts = .ok false) :
    importById id ts st = (.ok none, (findFile (some id) none none st).2)
  ∧ importByName nm ts st2 = (.ok none, (findFile none none (some nm) st2).2) := by
  constructor
  · simp [importById, hid, hf]
  · simp [importByName, hnm, hg]

/-- C6 witness: a stored `.exe` file found by id 1 and by name, with
allow-list [images]. -/
theorem importById_importByName_reject_disallowed_witness :
    importById 1 ["images"] stExe = (.ok none, (findFile (some 1) none none stExe).2)
  ∧ importByName "a.exe" ["images"] stExe
      = (.ok none, (findFile none none (some "a.exe") stExe).2) :=
  importById_importByName_reject_disallowed 1 "a.exe" ["images"] stExe stExe exeFile exeFile
    (by decide) (by decide) (by decide) (by decide)

/-- C10: a bare-string media reference always resolves to `null` with no
lookup, fetch, or upload: the string destructures to an `undefined` url, which
fails URL validation in the catch branch of `isValidFileUrl`. -/
theorem findOrImportFile_string_yields_null (s : String) (ts : List String)
    (w : World) (st : St) :
    findOrImportFile (.str s) ts w st = (.ok none, st) := by
  obtain ⟨e, he⟩ := getFileDataFromRawUrl_none
  simp [findOrImportFile, importByUrl, isValidFileUrl, he]

/-- C2: a URL whose derived extension the allow-list rejects makes
`importByUrl` return `null` with the state unchanged: no lookup, no HTTP GET,
no upload. -/
theorem importByUrl_disallowed_extension_null (fd : UrlDescriptor) (ts : List String)
    (w : World) (st : St) (fdd : FileData)
    (h1 : getFileDataFromRawUrl fd.url = .ok fdd)
    (h2 : isExtensionAllowed fdd.extension ts = .ok false) :
    importByUrl fd ts w st = (.ok none, st) := by
  have hv : isValidFileUrl fd.url ts = ⟨false, ⟨fdd.name, fd.url.getD "", some fdd.hashPart⟩⟩ := by
    simp only [isValidFileUrl, h1, h2, getHashPart_of_fileData _ _ h1]
  simp [importByUrl, hv]

/-- C2 witness: a url ending in `.exe` with allowed types [images]. -/
theorem importByUrl_disallowed_extension_null_witness :
    importByUrl exeUrl ["images"] wPng stEmpty = (.ok none, stEmpty) :=
  importByUrl_disallowed_extension_null exeUrl ["images"] wPng stEmpty ⟨"a.exe", "a", "exe"⟩
    (by decide) (by decide)


/-- C5: on every completed exit path of `importFile` — successful upload,
upload failure, or rejected fetch — the temp file written by the fetch has
been deleted: the disk is exactly as before the call (given the fetched path
was fresh, as `fse.mkdtemp` guarantees). -/
theorem importFile_leaves_no_temp_file (url : String) (n a c : Option String) (w : World)
    (st : St) (h : tmpPath w url ∉ st.disk) :
    (importFile url n a c w st).2.disk = st.disk := by
  rcases importFile_cases url n a c w st with hc | ⟨e, hc⟩ |
    ⟨f, fdd, hfd, hne, hnm, hp, hpne, ⟨e, hu, hc⟩ | ⟨uf, hu, hc⟩⟩
  · rw [hc]
  · rw [hc]
  · rw [hc]
    have hmem : f.path ∉ st.disk := by
      rw [hp]
      unfold tmpPath at h
      rw [hfd] at h
      exact h
    rw [List.erase_append_right _ hmem]
    simp
  · rw [hc]
    have hmem : f.path ∉ st.disk := by
      rw [hp]
      unfold tmpPath at h
      rw [hfd] at h
      exact h
    rw [List.erase_append_right _ hmem]
    simp

/-- C5 witness: a successful fetch-and-upload from an empty disk. -/
theorem importFile_leaves_no_temp_file_witness :
    (importFile "https://x/a.png" none none none wPng stEmpty).2.disk = stEmpty.disk :=
  importFile_leaves_no_temp_file "https://x/a.png" none none none wPng stEmpty (by decide)

/-- C3 (code bug): on a non-2xx status the callback of `request` throws inside
an `async` function, so the promise returned by `fetchFile` (and `importFile`)
never settles — it is not rejected as the spec demands — while a transport
error is correctly rejected.  No upload effect occurs in either case. -/
theorem fetchFile_non2xx_never_settles :
    fetchFile "https://x/a.png" w404 stEmpty
      = (.hang, ⟨[], [], [.httpGet "https://x/a.png"]⟩)
  ∧ importFile "https://x/a.png" none none none w404 stEmpty
      = (.hang, ⟨[], [], [.httpGet "https://x/a.png"]⟩)
  ∧ fetchFile "https://x/a.png" wNet stEmpty
      = (.err "ECONNREFUSED", ⟨[], [], [.httpGet "https://x/a.png"]⟩) :=
  ⟨by decide, by decide, by decide⟩

/-- C4 counterexample: for `https://x/y/pic.png` the dedup lookup key the code
uses is the derived file name `y-pic.png` (extension retained, dashes), not the
slug `y-pic`: slugifying the extension-stripped path yields `y_pic`, a stored
file whose hash starts with `y-pic_` is not found (the resolver queries
`y-pic.png` and proceeds to fetch), and `y-pic.png_` is not a prefix of its
hash. -/
theorem dedup_key_counterexample :
    (isValidFileUrl (some "https://x/y/pic.png") ["images"]).fileData.fileName = "y-pic.png"
  ∧ getHashPart (some "https://x/y/pic.png") = .ok "y_pic"
  ∧ strStartsWith "y-pic_123" ("y-pic" ++ "_") = true
  ∧ strStartsWith "y-pic_123" ("y-pic.png" ++ "_") = false
  ∧ importByUrl picUrl ["images"] wNet stHash
      = (.err "ECONNREFUSED",
         ⟨stHash.files, [],
          [.findFileByHash "y-pic.png", .httpGet "https://x/y/pic.png"]⟩) :=
  ⟨by decide, by decide, by decide, by decide, by decide⟩

/-- C4 (amended): for a valid URL with an allowed extension and a non-empty
derived file name, the dedup lookup key is that file name — the pathname
lowercased, trimmed of slashes, slashes replaced by dashes, extension retained
— and the resolver searches for a stored file whose hash starts with
`fileName_`. -/
theorem importByUrl_lookup_uses_fileName (fd : UrlDescriptor) (ts : List String)
    (w : World) (st : St) (fdd : FileData)
    (h1 : getFileDataFromRawUrl fd.url = .ok fdd)
    (h2 : isExtensionAllowed fdd.extension ts = .ok true)
    (h3 : fdd.name ≠ "") :
    (∃ rest, (importByUrl fd ts w st).2.trace
        = st.trace ++ Effect.findFileByHash fdd.name :: rest)
  ∧ (findFile none (some fdd.name) none st).1
      = (st.files.filter (fun f => strStartsWith f.hash (fdd.name ++ "_"))).head? := by
  have hv : isValidFileUrl fd.url ts = ⟨true, ⟨fdd.name, fd.url.getD "", some fdd.hashPart⟩⟩ := by
    simp only [isValidFileUrl, h1, h2, getHashPart_of_fileData _ _ h1]
  constructor
  · cases hm : (st.files.filter (fun f => strStartsWith f.hash (fdd.name ++ "_"))).head? with
    | some g =>
      exact ⟨[], by simp [importByUrl, hv, findFile, optNatTruthy, optStrTruthy, h3, hm]⟩
    | none =>
      rcases importFile_cases (fd.url.getD "") fd.name fd.alternativeText fd.caption w
          {st with trace := st.trace ++ [.findFileByHash fdd.name]} with hc | ⟨e, hc⟩ |
        ⟨f, fdd2, hfd2, hne2, hnm2, hp2, hpne2, ⟨e, hu, hc⟩ | ⟨uf, hu, hc⟩⟩
      · exact ⟨[.httpGet (fd.url.getD "")],
          by simp [importByUrl, hv, findFile, optNatTruthy, optStrTruthy, h3, hm, hc]⟩
      · exact ⟨[.httpGet (fd.url.getD "")],
          by simp [importByUrl, hv, findFile, optNatTruthy, optStrTruthy, h3, hm, hc]⟩
      · exact ⟨[.httpGet (fd.url.getD ""), .writeTmp f.path,
            uploadEffect fd.name fd.alternativeText fd.caption f, .deleteTmp f.path],
          by simp [importByUrl, hv, findFile, optNatTruthy, optStrTruthy, h3, hm, hc]⟩
      · exact ⟨[.httpGet (fd.url.getD ""), .writeTmp f.path,
            uploadEffect fd.name fd.alternativeText fd.caption f, .deleteTmp f.path],
          by simp [importByUrl, hv, findFile, optNatTruthy, optStrTruthy, h3, hm, hc]⟩
  · simp [findFile, optNatTruthy, optStrTruthy, h3]

/-- C4 (amended) witness: the lookup for `https://x/y/pic.png` uses the key
`y-pic.png`. -/
theorem importByUrl_lookup_uses_fileName_witness :
    (∃ rest, (importByUrl picUrl ["images"] wNet stHash).2.trace
        = stHash.trace ++ Effect.findFileByHash "y-pic.png" :: rest)
  ∧ (findFile none (some "y-pic.png") none stHash).1
      = (stHash.files.filter (fun f => strStartsWith f.hash ("y-pic.png" ++ "_"))).head? :=
  importByUrl_lookup_uses_fileName picUrl ["images"] wNet stHash
    ⟨"y-pic.png", "y_pic", "png"⟩ (by decide) (by decide) (by decide)


/-- C7: for an object descriptor, resolution order is id, then url, then name,
first branch yielding a stored file winning: an id hit is returned outright; a
url resolution runs only when the id branch yielded nothing and wins when it
returns a file; the name lookup runs only when both earlier branches yielded
nothing. -/
theorem findOrImportFile_resolution_order (i : Option Nat) (u n a c : Option String)
    (ts : List String) (w : World) (st : St) :
    (∀ f r, optNatTruthy i = true →
      importById (i.getD 0) ts st = (.ok (some f), r) →
      findOrImportFile (.obj i u n a c) ts w st = (.ok (some f), r))
  ∧ (∀ st1 f r,
      (if optNatTruthy i then importById (i.getD 0) ts st else (.ok none, st)) = (.ok none, st1) →
      optStrTruthy u = true →
      importByUrl ⟨u, n, a, c⟩ ts w st1 = (.ok (some f), r) →
      findOrImportFile (.obj i u n a c) ts w st = (.ok (some f), r))
  ∧ (∀ st1 st2 f r,
      (if optNatTruthy i then importById (i.getD 0) ts st else (.ok none, st)) = (.ok none, st1) →
      (if optStrTruthy u then importByUrl ⟨u, n, a, c⟩ ts w st1 else (.ok none, st1))
        = (.ok none, st2) →
      optStrTruthy n = true →
      importByName (n.getD "") ts st2 = (.ok (some f), r) →
      findOrImportFile (.obj i u n a c) ts w st = (.ok (some f), r)) := by
  refine ⟨?_, ?_, ?_⟩
  · intro f r hi hb
    simp [findOrImportFile, hi, hb]
  · intro st1 f r hs1 hu hb
    simp [findOrImportFile, hs1, hu, hb]
  · intro st1 st2 f r hs1 hs2 hn hb
    simp [findOrImportFile, hs1, hs2, hn, hb]

/-- C7 witness: with no id and no url, a name-only descriptor resolves through
the name branch. -/
theorem findOrImportFile_resolution_order_witness :
    findOrImportFile (.obj none none (some "img.png") none none) ["files"] wPng stImg
      = (.ok (some imgFile), ⟨[imgFile], [], [.findFileByName "img.png"]⟩) :=
  (findOrImportFile_resolution_order none none (some "img.png") none none
      ["files"] wPng stImg).2.2 stImg stImg imgFile
    ⟨[imgFile], [], [.findFileByName "img.png"]⟩
    (by decide) (by decide) (by decide) (by decide)


theorem head_mem_of_head_eq_some {α : Type} (l : List α) (x : α) (h : l.head? = some x) :
    x ∈ l := by
  cases l with
  | nil => cases h
  | cons y ys =>
    simp only [List.head?_cons, Option.some.injEq] at h
    rw [← h]
    exact List.mem_cons_self y ys

/-- C1: when a first `importByUrl` resolution of a URL descriptor resolved a
file (so any upload that happened stored a file whose hash starts with the
derived file name followed by an underscore, as the dedup key presumes), a
second resolution from the resulting state performs the `findFile` hash lookup
and returns a file already in the store, adding only that lookup to the trace:
no fetch and no upload occur the second time. -/
theorem importByUrl_dedup_second_resolution (fd : UrlDescriptor) (ts : List String)
    (w : World) (st st1 : St) (f : StoredFile)
    (h1 : importByUrl fd ts w st = (.ok (some f), st1))
    (h2 : ∀ g, w.uploadResult = .ok g →
      strStartsWith g.hash ((isValidFileUrl fd.url ts).fileData.fileName ++ "_") = true) :
    ∃ f2, f2 ∈ st1.files ∧
      importByUrl fd ts w st1
        = (.ok (some f2),
           {st1 with trace := st1.trace
              ++ [.findFileByHash (isValidFileUrl fd.url ts).fileData.fileName]}) := by
  by_cases hv : (isValidFileUrl fd.url ts).isValid = true
  · obtain ⟨u, fdd, hurl, hfd, hext, hvv⟩ := isValidFileUrl_ok _ _ hv
    have hfn : (isValidFileUrl fd.url ts).fileData.fileName = fdd.name := by rw [hvv]
    rw [hfn] at h2 ⊢
    by_cases h3 : fdd.name = ""
    · rcases importFile_cases u fd.name fd.alternativeText fd.caption w st with
        hc | ⟨e, hc⟩ | ⟨ff, fdd2, hfd2, hne2, hnm2, hp2, hpne2, ⟨e, hu, hc⟩ | ⟨uf, hu, hc⟩⟩
      · simp [importByUrl, hvv, findFile, optNatTruthy, optStrTruthy, h3, hc] at h1
      · simp [importByUrl, hvv, findFile, optNatTruthy, optStrTruthy, h3, hc] at h1
      · simp [importByUrl, hvv, findFile, optNatTruthy, optStrTruthy, h3, hc] at h1
      · rw [hfd] at hfd2
        injection hfd2 with hfdd
        rw [hfdd] at h3
        exact absurd h3 hne2
    · cases hm : (st.files.filter (fun x => strStartsWith x.hash (fdd.name ++ "_"))).head? with
      | some g =>
        simp [importByUrl, hvv, findFile, optNatTruthy, optStrTruthy, h3, hm] at h1
        obtain ⟨hgf, hst⟩ := h1
        subst hst
        refine ⟨g, ?_, ?_⟩
        · exact List.mem_of_mem_filter (head_mem_of_head_eq_some _ _ hm)
        · simp [importByUrl, hvv, findFile, optNatTruthy, optStrTruthy, h3, hm]
      | none =>
        rcases importFile_cases u fd.name fd.alternativeText fd.caption w
            {st with trace := st.trace ++ [.findFileByHash fdd.name]} with
          hc | ⟨e, hc⟩ | ⟨ff, fdd2, hfd2, hne2, hnm2, hp2, hpne2, ⟨e, hu, hc⟩ | ⟨uf, hu, hc⟩⟩
        · simp [importByUrl, hvv, findFile, optNatTruthy, optStrTruthy, h3, hm, hc] at h1
        · simp [importByUrl, hvv, findFile, optNatTruthy, optStrTruthy, h3, hm, hc] at h1
        · simp [importByUrl, hvv, findFile, optNatTruthy, optStrTruthy, h3, hm, hc] at h1
        · simp [importByUrl, hvv, findFile, optNatTruthy, optStrTruthy, h3, hm, hc] at h1
          obtain ⟨huf, hst⟩ := h1
          subst hst
          have hsw := h2 uf hu
          have hfl : st.files.filter (fun x => strStartsWith x.hash (fdd.name ++ "_")) = [] :=
            List.head?_eq_none_iff.mp hm
          refine ⟨uf, by simp, ?_⟩
          simp [importByUrl, hvv, findFile, optNatTruthy, optStrTruthy, h3,
            List.filter_append, hfl, hsw]
  · have hv' : (isValidFileUrl fd.url ts).isValid = false := by
      simpa using hv
    simp [importByUrl, hv'] at h1

/-- C1 witness: resolving `https://x/y/pic.png` a second time after a first
resolution that fetched and uploaded it reuses the stored file with only a
hash lookup. -/
theorem importByUrl_dedup_second_resolution_witness :
    ∃ f2, f2 ∈ st1Png.files ∧
      importByUrl picUrl ["images"] wPng st1Png
        = (.ok (some f2),
           {st1Png with trace := st1Png.trace ++ [.findFileByHash "y-pic.png"]}) :=
  importByUrl_dedup_second_resolution picUrl ["images"] wPng stEmpty st1Png pngFile
    (by decide)
    (by intro g hg
        have hg2 : (Except.ok pngFile : Except String StoredFile) = Except.ok g := hg
        injection hg2 with hgg
        rw [← hgg]
        decide)

end ImportExport

namespace ExportController

/-- C9: an export request whose principal lacks read permission on the target
collection is answered with forbidden and the export service is never
invoked. -/
theorem exportData_forbidden_without_read (deps : Deps) (ctx : ExportCtx)
    (h : hasPermissions deps ctx = false) :
    exportData deps ctx = (.forbidden, []) := by
  simp [exportData, h]

/-- C9 witness: a permission checker that denies read. -/
theorem exportData_forbidden_without_read_witness :
    exportData depsNoRead ctxSample = (.forbidden, []) :=
  exportData_forbidden_without_read depsNoRead ctxSample rfl

end ExportController
